import Mathlib

/-!
Verification development for a pub/sub channel layer: the backend group
index, the connection registry, channel-name generation, the token-bucket
rate limiter, the middleware stages and the per-connection dispatch loop.
Dictionaries of the implementation are modelled as functions into `Option`,
its sets as duplicate-free lists, clock readings as rationals, and raised
exceptions as `Except` error results.
-/

/-- Minimal model of a JSON value, used for the opaque payload fields. -/
inductive JVal where
  | null : JVal
  | bool (b : Bool) : JVal
  | num (q : ℚ) : JVal
  | str (s : String) : JVal
  | arr (xs : List JVal) : JVal
  | obj (fields : List (String × JVal)) : JVal

/-- Group index of the backend: a group name maps to its set of member
channels, `none` meaning the key is absent from the dictionary. -/
def GIdx : Type := String → Option (List String)

/-- Python `set.add` on a list-modelled set. -/
def setInsert (c : String) (s : List String) : List String :=
  if c ∈ s then s else c :: s

/-- Embedding of `BaseBackend.group_add`: create the key with an empty set if
absent, then add the channel to the group's set. -/
def group_add (G : GIdx) (g c : String) : GIdx :=
  fun g' => if g' = g then some (setInsert c ((G g).getD [])) else G g'

/-- Embedding of `BaseBackend.group_discard`, rendered pointwise: when the key
is present, discard the channel from its set and delete the key if the set
became empty; when the key is absent, do nothing. -/
def group_discard (G : GIdx) (g c : String) : GIdx :=
  fun g' =>
    if g' = g then
      match G g with
      | none => G g'
      | some s => if s.erase c = [] then none else some (s.erase c)
    else G g'

/-- Embedding of `BaseBackend.group_channels` (via `_get_group_channels`):
the set of channels of a group, empty when the key is absent. -/
def group_channels (G : GIdx) (g : String) : List String :=
  (G g).getD []

/-- The group index of a freshly constructed backend. -/
def emptyGIdx : GIdx := fun _ => none

/-- One group-index mutation of the backend contract. -/
inductive GOp where
  | add (g c : String) : GOp
  | discard (g c : String) : GOp

/-- Apply one group-index operation. -/
def applyGOp (G : GIdx) : GOp → GIdx
  | GOp.add g c => group_add G g c
  | GOp.discard g c => group_discard G g c

/-- Run a sequence of group-index operations from the empty index. -/
def runGOps (ops : List GOp) : GIdx :=
  ops.foldl applyGOp emptyGIdx

/-- Group-index invariant: no present key maps to an empty member set. -/
def GInv (G : GIdx) : Prop :=
  ∀ g s, G g = some s → s ≠ []

theorem setInsert_ne_nil (c : String) (s : List String) : setInsert c s ≠ [] := by
  unfold setInsert
  split
  · intro h
    subst h
    simp_all
  · simp

theorem setInsert_mem (c : String) (s : List String) : c ∈ setInsert c s := by
  unfold setInsert
  split
  · assumption
  · exact List.mem_cons_self c s

theorem GInv_empty : GInv emptyGIdx := by
  intro g s h
  simp [emptyGIdx] at h

theorem GInv_group_add {G : GIdx} (h : GInv G) (g c : String) :
    GInv (group_add G g c) := by
  intro g' s hs
  unfold group_add at hs
  by_cases hg : g' = g
  · rw [if_pos hg] at hs
    injection hs with h1
    exact fun hnil => setInsert_ne_nil c ((G g).getD []) (h1.trans hnil)
  · rw [if_neg hg] at hs
    exact h g' s hs

theorem GInv_group_discard {G : GIdx} (h : GInv G) (g c : String) :
    GInv (group_discard G g c) := by
  intro g' s hs
  unfold group_discard at hs
  split at hs
  · split at hs
    · exact h g' s hs
    · split at hs
      · cases hs
      · injection hs with h1
        next he =>
          exact fun hnil => he (h1.trans hnil)
  · exact h g' s hs

theorem GInv_applyGOp {G : GIdx} (h : GInv G) (op : GOp) : GInv (applyGOp G op) := by
  cases op with
  | add g c => exact GInv_group_add h g c
  | discard g c => exact GInv_group_discard h g c

theorem GInv_foldl {G : GIdx} (h : GInv G) (ops : List GOp) :
    GInv (ops.foldl applyGOp G) := by
  induction ops generalizing G with
  | nil => exact h
  | cons op rest ih => exact ih (GInv_applyGOp h op)

theorem GInv_runGOps (ops : List GOp) : GInv (runGOps ops) :=
  GInv_foldl GInv_empty ops

/-- Claim C3: after any sequence of group_add and group_discard operations
from an empty backend, a group name is a key of the index iff its channel
set is non-empty, and group_channels of an absent group is the empty set. -/
theorem C3_group_index_invariant (ops : List GOp) (g : String) :
    ((runGOps ops g).isSome ↔ group_channels (runGOps ops) g ≠ []) ∧
    (runGOps ops g = none → group_channels (runGOps ops) g = []) := by
  constructor
  · constructor
    · intro hsome
      cases hG : runGOps ops g with
      | none => rw [hG] at hsome; cases hsome
      | some s =>
        have hne : s ≠ [] := GInv_runGOps ops g s hG
        simpa [group_channels, hG] using hne
    · intro hne
      cases hG : runGOps ops g with
      | none => simp [group_channels, hG] at hne
      | some s => simp
  · intro hnone
    simp [group_channels, hnone]

/-- Claim C3 witness: a concrete run of the theorem. -/
theorem C3_group_index_invariant_witness :
    ((runGOps [GOp.add ("g") ("c"), GOp.discard ("g") ("c")] ("g")).isSome ↔
      group_channels (runGOps [GOp.add ("g") ("c"), GOp.discard ("g") ("c")]) ("g") ≠ []) ∧
    (runGOps [GOp.add ("g") ("c"), GOp.discard ("g") ("c")] ("g") = none →
      group_channels (runGOps [GOp.add ("g") ("c"), GOp.discard ("g") ("c")]) ("g") = []) :=
  C3_group_index_invariant [GOp.add ("g") ("c"), GOp.discard ("g") ("c")] ("g")

theorem setInsert_idem (c : String) (s : List String) :
    setInsert c (setInsert c s) = setInsert c s := by
  unfold setInsert
  by_cases h : c ∈ s
  · simp [h]
  · simp [h]

/-- Claim C9: group_add is idempotent and group_discard of a non-member (or of
an absent group) leaves the index unchanged; the latter on any index
satisfying the reachability invariant `GInv`. -/
theorem C9_group_ops_idempotent :
    (∀ (G : GIdx) (g c : String), group_add (group_add G g c) g c = group_add G g c) ∧
    (∀ (G : GIdx) (g c : String), GInv G → c ∉ group_channels G g →
      group_discard G g c = G) := by
  constructor
  · intro G g c
    funext g'
    unfold group_add
    by_cases hg : g' = g
    · rw [if_pos hg, if_pos hg, if_pos rfl]
      rw [Option.getD_some, setInsert_idem]
    · rw [if_neg hg, if_neg hg]
  · intro G g c hInv hmem
    funext g'
    unfold group_discard
    by_cases hg : g' = g
    · rw [if_pos hg]
      cases hG : G g with
      | none => simp [hg]
      | some s =>
        have hcs : c ∉ s := by
          simpa [group_channels, hG] using hmem
        have herase : s.erase c = s := List.erase_of_not_mem hcs
        have hne : s ≠ [] := hInv g s hG
        simp only [herase, if_neg hne, hg, hG]
    · rw [if_neg hg]

/-- Claim C9 witness: on the empty index, discarding an absent member is a
no-op, through the theorem at a concrete input. -/
theorem C9_group_ops_idempotent_witness :
    GInv emptyGIdx ∧ ("c" ∉ group_channels emptyGIdx ("g")) ∧
      group_discard emptyGIdx ("g") ("c") = emptyGIdx :=
  ⟨GInv_empty, by simp [group_channels, emptyGIdx],
    C9_group_ops_idempotent.2 emptyGIdx ("g") ("c") GInv_empty
      (by simp [group_channels, emptyGIdx])⟩

/-- Decimal digit character codes of a natural number, most significant digit
first; the code of a digit d is 48 + d. -/
def natChars (n : Nat) : List Nat :=
  ((Nat.digits 10 n).reverse).map (fun d => 48 + d)

/-- Embedding of the f-string in `BaseBackend.new_channel`: the generated
channel name as a list of character codes, prefix, dot (code 46), clock
reading in milliseconds, dot, counter. -/
def newChannelName (pre : List Nat) (t counter : Nat) : List Nat :=
  pre ++ 46 :: natChars t ++ 46 :: natChars counter

/-- Run a burst of `new_channel` calls on one backend instance: each call
supplies a prefix and a clock reading, and the counter guarded by the
backend's lock increments before the name is built. -/
def runNewChannels : List (List Nat × Nat) → Nat → List (List Nat)
  | [], _ => []
  | (p, t) :: rest, k => newChannelName p t (k + 1) :: runNewChannels rest (k + 1)

theorem natChars_ne_dot (n : Nat) : ∀ x ∈ natChars n, x ≠ 46 := by
  intro x hx
  obtain ⟨d, _, rfl⟩ := List.mem_map.1 hx
  omega

theorem natChars_injective : Function.Injective natChars := by
  intro m n h
  unfold natChars at h
  have h1 : (Nat.digits 10 m).reverse = (Nat.digits 10 n).reverse :=
    List.map_injective_iff.2 (fun a b hab => by omega) h
  have h2 : Nat.digits 10 m = Nat.digits 10 n := by
    have h3 := congrArg List.reverse h1
    simpa using h3
  calc m = Nat.ofDigits 10 (Nat.digits 10 m) := (Nat.ofDigits_digits 10 m).symm
    _ = Nat.ofDigits 10 (Nat.digits 10 n) := by rw [h2]
    _ = n := Nat.ofDigits_digits 10 n

/-- The suffix of a character-code list after its last dot. -/
def lastSeg (l : List Nat) : List Nat :=
  ((l.reverse.takeWhile (fun x => decide (x ≠ 46))).reverse)

theorem takeWhile_all_cons (p : Nat → Bool) (as : List Nat) (b : Nat)
    (bs : List Nat) (hall : ∀ a ∈ as, p a = true) (hb : p b = false) :
    ((as ++ b :: bs).takeWhile p) = as := by
  induction as with
  | nil => simp [List.takeWhile_cons, hb]
  | cons a as ih =>
    have ha : p a = true := hall a (List.mem_cons_self a as)
    have ih2 := ih (fun x hx => hall x (List.mem_cons_of_mem a hx))
    simp [List.takeWhile_cons, ha, ih2]

theorem lastSeg_append (ys xs : List Nat) (h : ∀ x ∈ xs, x ≠ 46) :
    lastSeg (ys ++ 46 :: xs) = xs := by
  unfold lastSeg
  rw [List.reverse_append, List.reverse_cons, List.append_assoc,
    List.singleton_append]
  rw [takeWhile_all_cons _ _ _ _
    (fun a ha => decide_eq_true (h a (List.mem_reverse.1 ha))) (by decide)]
  exact List.reverse_reverse xs

theorem newChannelName_lastSeg (pre : List Nat) (t c : Nat) :
    lastSeg (newChannelName pre t c) = natChars c := by
  unfold newChannelName
  rw [show pre ++ 46 :: natChars t ++ 46 :: natChars c =
      (pre ++ 46 :: natChars t) ++ 46 :: natChars c by
    simp [List.append_assoc]]
  exact lastSeg_append _ _ (natChars_ne_dot c)

theorem newChannelName_counter_inj {p1 p2 : List Nat} {t1 t2 c1 c2 : Nat}
    (h : newChannelName p1 t1 c1 = newChannelName p2 t2 c2) : c1 = c2 := by
  have h1 := congrArg lastSeg h
  rw [newChannelName_lastSeg, newChannelName_lastSeg] at h1
  exact natChars_injective h1

theorem mem_runNewChannels {calls : List (List Nat × Nat)} {k : Nat}
    {x : List Nat} (hx : x ∈ runNewChannels calls k) :
    ∃ p t c, k < c ∧ x = newChannelName p t c := by
  induction calls generalizing k with
  | nil => cases hx
  | cons pt rest ih =>
    obtain ⟨p, t⟩ := pt
    simp only [runNewChannels] at hx
    rcases List.mem_cons.1 hx with hx1 | hx2
    · exact ⟨p, t, k + 1, Nat.lt_succ_self k, hx1⟩
    · obtain ⟨p', t', c, hc, hx3⟩ := ih hx2
      exact ⟨p', t', c, Nat.lt_of_succ_lt hc, hx3⟩

/-- Claim C10: every burst of new_channel calls on one backend instance
returns pairwise distinct names, because the strictly increasing counter is
embedded as the suffix of the name after its last dot. -/
theorem C10_new_channel_distinct (calls : List (List Nat × Nat)) (k : Nat) :
    (runNewChannels calls k).Nodup := by
  induction calls generalizing k with
  | nil => simp [runNewChannels]
  | cons pt rest ih =>
    obtain ⟨p, t⟩ := pt
    simp only [runNewChannels]
    refine List.nodup_cons.2 ⟨?_, ih (k + 1)⟩
    intro hmem
    obtain ⟨p', t', c, hc, heq⟩ := mem_runNewChannels hmem
    have h1 : k + 1 = c := newChannelName_counter_inj heq
    omega

/-- Error raised by `asyncio.wait_for` when the wait exceeds the timeout. -/
inductive RecvError where
  | timedOut : RecvError

/-- Embedding of `MemoryBackend.get_message`. The channel map carries each
existing channel's queue content over the timeout window: an absent channel
returns Python `None` (`Except.ok none`); an existing channel on whose queue
no message is available within the window makes `asyncio.wait_for` raise
its timeout error (`Except.error`); otherwise the next queued message is
returned. The timeout argument mirrors the signature; a finite positive
timeout is assumed. -/
def get_message (channels : String → Option (List JVal)) (channel : String)
    (timeout : ℚ) : Except RecvError (Option JVal) :=
  match channels channel with
  | none => Except.ok none
  | some [] => Except.error RecvError.timedOut
  | some (m :: _) => Except.ok (some m)

/-- Embedding of `MemoryBackend.receive`, an alias of `get_message`. -/
def receive (channels : String → Option (List JVal)) (channel : String)
    (timeout : ℚ) : Except RecvError (Option JVal) :=
  get_message channels channel timeout

/-- Claim C5: receive on an existing channel with no message available fails
with the timeout outcome, which is distinct both from every received-message
outcome and from the channel-not-found outcome (Python None); the same null
value is never returned for both timeout and channel-not-found. -/
theorem C5_receive_outcomes (channels : String → Option (List JVal))
    (channel : String) (timeout : ℚ) :
    (channels channel = none → receive channels channel timeout = Except.ok none) ∧
    (channels channel = some [] →
      receive channels channel timeout = Except.error RecvError.timedOut) ∧
    (∀ m : JVal,
      (Except.error RecvError.timedOut : Except RecvError (Option JVal)) ≠
        Except.ok (some m)) ∧
    ((Except.error RecvError.timedOut : Except RecvError (Option JVal)) ≠
      Except.ok none) := by
  refine ⟨?_, ?_, ?_, ?_⟩
  · intro h
    simp [receive, get_message, h]
  · intro h
    simp [receive, get_message, h]
  · intro m h
    cases h
  · intro h
    cases h

/-- Channel map with one existing channel `"a"` whose queue stays empty. -/
def chan0 : String → Option (List JVal) :=
  fun c => if c = "a" then some [] else none

/-- Claim C5 witness: the theorem applied at a concrete channel map, with an
existing-but-quiet channel and an absent channel. -/
theorem C5_receive_outcomes_witness :
    chan0 ("a") = some [] ∧ chan0 ("b") = none ∧
    receive chan0 ("a") 1 = Except.error RecvError.timedOut ∧
    receive chan0 ("b") 1 = Except.ok none :=
  ⟨rfl, rfl, (C5_receive_outcomes chan0 ("a") 1).2.1 rfl,
    (C5_receive_outcomes chan0 ("b") 1).1 rfl⟩

/-- State of `TokenBucketRateLimiter`: configuration plus the per-key bucket
dictionary storing `(last_check_time, available_tokens)`. -/
structure TokenBucketRateLimiter where
  rate : ℤ
  window : ℤ
  burst : ℤ
  buckets : String → Option (ℚ × ℤ)

/-- Python `int()` on an exact rational: truncation toward zero. -/
def pyInt (q : ℚ) : ℤ :=
  if 0 ≤ q then ⌊q⌋ else ⌈q⌉

/-- Python dictionary store `self.buckets[key] = v`. -/
def bucketStore (b : String → Option (ℚ × ℤ)) (key : String) (v : ℚ × ℤ) :
    String → Option (ℚ × ℤ) :=
  fun k => if k = key then some v else b k

/-- Embedding of `TokenBucketRateLimiter.allow`, with the `time.time()`
reading passed as `now` and the float arithmetic idealized to exact
rationals. -/
def allow (s : TokenBucketRateLimiter) (key : String) (now : ℚ) :
    Bool × TokenBucketRateLimiter :=
  match s.buckets key with
  | none =>
      (true, { s with buckets := bucketStore s.buckets key (now, s.burst - 1) })
  | some (last_check, tokens) =>
      let elapsed : ℚ := now - last_check
      let tokens' : ℤ :=
        min s.burst (tokens + pyInt (elapsed * ((s.rate : ℚ) / (s.window : ℚ))))
      if 0 < tokens' then
        (true, { s with buckets := bucketStore s.buckets key (now, tokens' - 1) })
      else
        (false, { s with buckets := bucketStore s.buckets key (now, 0) })

/-- Run `allow` at one key over a list of successive clock readings; returns
the list of outcomes and the final limiter state. -/
def allowRun (s : TokenBucketRateLimiter) (key : String) :
    List ℚ → List Bool × TokenBucketRateLimiter
  | [] => ([], s)
  | t :: ts =>
      let r := allow s key t
      let rest := allowRun r.2 key ts
      (r.1 :: rest.1, rest.2)

/-- A freshly constructed limiter: empty bucket dictionary. -/
def initLimiter (rate window burst : ℤ) : TokenBucketRateLimiter :=
  { rate := rate, window := window, burst := burst, buckets := fun _ => none }

theorem allow_first (s : TokenBucketRateLimiter) (key : String) (now : ℚ)
    (h : s.buckets key = none) :
    (allow s key now).1 = true ∧
    (allow s key now).2.buckets key = some (now, s.burst - 1) := by
  simp [allow, h, bucketStore]

theorem allow_subsequent (s : TokenBucketRateLimiter) (key : String)
    (now last : ℚ) (tokens : ℤ)
    (h : s.buckets key = some (last, tokens))
    (h1 : 0 ≤ now - last) (h2 : 0 < s.window) (h3 : 0 ≤ s.rate) :
    (0 < min s.burst (tokens + ⌊(now - last) * (s.rate : ℚ) / (s.window : ℚ)⌋) →
      (allow s key now).1 = true ∧
      (allow s key now).2.buckets key =
        some (now,
          min s.burst (tokens + ⌊(now - last) * (s.rate : ℚ) / (s.window : ℚ)⌋) - 1)) ∧
    (min s.burst (tokens + ⌊(now - last) * (s.rate : ℚ) / (s.window : ℚ)⌋) ≤ 0 →
      (allow s key now).1 = false ∧
      (allow s key now).2.buckets key = some (now, 0)) := by
  have hq : (0 : ℚ) ≤ (now - last) * ((s.rate : ℚ) / (s.window : ℚ)) := by
    refine mul_nonneg h1 (div_nonneg ?_ ?_)
    · exact_mod_cast h3
    · exact_mod_cast le_of_lt h2
  have hpy : pyInt ((now - last) * ((s.rate : ℚ) / (s.window : ℚ))) =
      ⌊(now - last) * (s.rate : ℚ) / (s.window : ℚ)⌋ := by
    rw [pyInt, if_pos hq, mul_div_assoc]
  constructor
  · intro hc
    simp only [allow, h, hpy]
    rw [if_pos hc]
    exact ⟨rfl, by simp [bucketStore]⟩
  · intro hc
    simp only [allow, h, hpy]
    rw [if_neg (not_lt.2 hc)]
    exact ⟨rfl, by simp [bucketStore]⟩

theorem allow_scenario :
    (allowRun (initLimiter 10 60 10) ("k")
      [0, 0, 0, 0, 0, 0, 0, 0, 0, 0, 0, 6, 6]).1 =
    [true, true, true, true, true, true, true, true, true, true,
      false, true, false] := by
  norm_num [allowRun, allow, initLimiter, pyInt, bucketStore, min_def]

/-- Claim C2: on the first call for a key the limiter stores
`(now, burst - 1)` and allows; on every subsequent call it refills by
`floor(elapsed * rate / window)` capped at `burst`, allows and stores one
token fewer when the refilled count is positive, and denies storing zero
otherwise; with rate=10, window=60, burst=10, ten calls at t=0 are allowed,
the eleventh is denied, and at t=6 exactly one further call is allowed
before the next is denied. -/
theorem C2_token_bucket_allow :
    (∀ (s : TokenBucketRateLimiter) (key : String) (now : ℚ),
      s.buckets key = none →
      (allow s key now).1 = true ∧
      (allow s key now).2.buckets key = some (now, s.burst - 1)) ∧
    (∀ (s : TokenBucketRateLimiter) (key : String) (now last : ℚ) (tokens : ℤ),
      s.buckets key = some (last, tokens) →
      0 ≤ now - last → 0 < s.window → 0 ≤ s.rate →
      (0 < min s.burst (tokens + ⌊(now - last) * (s.rate : ℚ) / (s.window : ℚ)⌋) →
        (allow s key now).1 = true ∧
        (allow s key now).2.buckets key =
          some (now,
            min s.burst (tokens + ⌊(now - last) * (s.rate : ℚ) / (s.window : ℚ)⌋) - 1)) ∧
      (min s.burst (tokens + ⌊(now - last) * (s.rate : ℚ) / (s.window : ℚ)⌋) ≤ 0 →
        (allow s key now).1 = false ∧
        (allow s key now).2.buckets key = some (now, 0))) ∧
    (allowRun (initLimiter 10 60 10) ("k")
      [0, 0, 0, 0, 0, 0, 0, 0, 0, 0, 0, 6, 6]).1 =
    [true, true, true, true, true, true, true, true, true, true,
      false, true, false] :=
  ⟨allow_first,
    fun s key now last tokens h h1 h2 h3 => allow_subsequent s key now last tokens h h1 h2 h3,
    allow_scenario⟩

/-- Limiter with one stored bucket, for the claim C2 witness. -/
def limiter0 : TokenBucketRateLimiter :=
  { rate := 10, window := 60, burst := 10,
    buckets := fun k => if k = "k" then some (0, 5) else none }

/-- Claim C2 witness: the theorem applied at concrete inputs, discharging the
hypotheses of both the first-call and the subsequent-call parts. -/
theorem C2_token_bucket_allow_witness :
    ((initLimiter 10 60 10).buckets ("k") = none ∧
      (allow (initLimiter 10 60 10) ("k") 0).1 = true ∧
      (allow (initLimiter 10 60 10) ("k") 0).2.buckets ("k") =
        some (0, (initLimiter 10 60 10).burst - 1)) ∧
    (limiter0.buckets ("k") = some (0, 5) ∧ (0 : ℚ) ≤ 0 - 0 ∧
      (0 : ℤ) < limiter0.window ∧ (0 : ℤ) ≤ limiter0.rate ∧
      0 < min limiter0.burst
        (5 + ⌊((0 : ℚ) - 0) * (limiter0.rate : ℚ) / (limiter0.window : ℚ)⌋) ∧
      (allow limiter0 ("k") 0).1 = true ∧
      (allow limiter0 ("k") 0).2.buckets ("k") =
        some (0, min limiter0.burst
          (5 + ⌊((0 : ℚ) - 0) * (limiter0.rate : ℚ) / (limiter0.window : ℚ)⌋) - 1)) := by
  have hpos : 0 < min limiter0.burst
      (5 + ⌊((0 : ℚ) - 0) * (limiter0.rate : ℚ) / (limiter0.window : ℚ)⌋) := by
    simp [limiter0, min_def]
  have hstep := (C2_token_bucket_allow.2.1 limiter0 ("k") 0 0 5 rfl (by simp)
    (by decide) (by decide)).1 hpos
  exact ⟨⟨rfl, C2_token_bucket_allow.1 (initLimiter 10 60 10) ("k") 0 rfl⟩,
    rfl, by simp, by decide, by decide, hpos, hstep⟩

/-- Pointwise dictionary store `f[k] = v`. -/
def fupdate {α : Type} (f : String → α) (k : String) (v : α) : String → α :=
  fun x => if x = k then v else f x

theorem fupdate_same {α : Type} (f : String → α) (k : String) (v : α) :
    fupdate f k v k = v := by
  simp [fupdate]

theorem fupdate_other {α : Type} (f : String → α) (k : String) (v : α)
    {x : String} (h : x ≠ k) : fupdate f k v x = f x := by
  simp [fupdate, h]

/-- Python truthiness of an optional string: `None` and the empty string are
falsy. -/
def truthy : Option String → Bool
  | none => false
  | some s => decide (s ≠ "")

/-- Value stored under a connection in `_registry_connection_data`. -/
structure ConnData where
  user_id : Option String
  meta : JVal
  groups : List String
  heartbeat_timeout : ℚ

/-- Registry state of `MemoryBackend`: the `_registry_connections` set, the
primary `_registry_connection_data` map and the secondary
`_registry_user_connections` index. -/
structure RegState where
  connections : String → Bool
  data : String → Option ConnData
  userConns : String → Option (List String)

/-- Embedding of `MemoryBackend.registry_add_connection`: record the
connection in the set and the primary map, and add it under its user in the
secondary index when the user id is truthy. -/
def registry_add_connection (r : RegState) (c : String) (u : Option String)
    (m : JVal) (gs : List String) (hb : ℚ) : RegState :=
  { connections := fupdate r.connections c true
    data := fupdate r.data c
      (some { user_id := u, meta := m, groups := gs, heartbeat_timeout := hb })
    userConns :=
      match u with
      | some uu =>
          if uu ≠ "" then
            fupdate r.userConns uu (some (setInsert c ((r.userConns uu).getD [])))
          else r.userConns
      | none => r.userConns }

/-- Embedding of `MemoryBackend.registry_remove_connection`: discard the
connection from the set and the primary map; when the caller's user id is
truthy and present in the secondary index, discard the connection from that
user's set and delete the user key if the set became empty. -/
def registry_remove_connection (r : RegState) (c : String) (u : Option String) :
    RegState :=
  { connections := fupdate r.connections c false
    data := fupdate r.data c none
    userConns :=
      match u with
      | some uu =>
          if uu ≠ "" then
            match r.userConns uu with
            | none => r.userConns
            | some s =>
                if s.erase c = [] then fupdate r.userConns uu none
                else fupdate r.userConns uu (some (s.erase c))
          else r.userConns
      | none => r.userConns }

/-- Embedding of `MemoryBackend.registry_update_groups`: replace the stored
groups of a connection present in the primary map. -/
def registry_update_groups (r : RegState) (c : String) (gs : List String) :
    RegState :=
  { r with
    data := fun x =>
      if x = c then
        match r.data x with
        | none => none
        | some d => some { d with groups := gs }
      else r.data x }

/-- Embedding of `MemoryBackend.registry_get_user_connections`. -/
def registry_get_user_connections (r : RegState) (u : String) : List String :=
  (r.userConns u).getD []

/-- Embedding of `MemoryBackend.registry_get_connection_groups`. -/
def registry_get_connection_groups (r : RegState) (c : String) : List String :=
  match r.data c with
  | none => []
  | some d => d.groups

/-- Registry state of a freshly constructed backend. -/
def initReg : RegState :=
  { connections := fun _ => false, data := fun _ => none, userConns := fun _ => none }

/-- One registry mutation. -/
inductive RegOp where
  | add (c : String) (u : Option String) (m : JVal) (gs : List String) (hb : ℚ) : RegOp
  | remove (c : String) (u : Option String) : RegOp
  | updateGroups (c : String) (gs : List String) : RegOp

/-- Apply one registry operation. -/
def applyRegOp (r : RegState) : RegOp → RegState
  | RegOp.add c u m gs hb => registry_add_connection r c u m gs hb
  | RegOp.remove c u => registry_remove_connection r c u
  | RegOp.updateGroups c gs => registry_update_groups r c gs

/-- Call discipline of the surrounding connection layer: a connection is
added under a fresh id, and a removal passes the user id stored for that
connection in the primary map. -/
def Disciplined (r : RegState) : RegOp → Prop
  | RegOp.add c _ _ _ _ => r.data c = none
  | RegOp.remove c u => ∀ d, r.data c = some d → u = d.user_id
  | RegOp.updateGroups _ _ => True

/-- A sequence of registry operations each disciplined in the state it runs
in. -/
def DiscRun (r : RegState) : List RegOp → Prop
  | [] => True
  | op :: rest => Disciplined r op ∧ DiscRun (applyRegOp r op) rest

/-- Run a sequence of registry operations. -/
def runRegOps (r : RegState) (ops : List RegOp) : RegState :=
  ops.foldl applyRegOp r

/-- Registry invariant: the connection set and the primary map agree; every
secondary-index entry is a non-empty duplicate-free set under a non-empty
user key whose members are in the primary map with exactly that user id;
and every connection of the primary map with a truthy user id appears in
the secondary index under it. -/
def RegInv (r : RegState) : Prop :=
  (∀ c, r.connections c = true ↔ (r.data c).isSome) ∧
  (∀ u s, r.userConns u = some s → s ≠ [] ∧ u ≠ "" ∧ s.Nodup ∧
    ∀ c ∈ s, ∃ d, r.data c = some d ∧ d.user_id = some u) ∧
  (∀ c d u, r.data c = some d → d.user_id = some u → u ≠ "" →
    ∃ s, r.userConns u = some s ∧ c ∈ s)

theorem setInsert_nodup {c : String} {s : List String} (h : s.Nodup) :
    (setInsert c s).Nodup := by
  unfold setInsert
  split
  · exact h
  · next hc => exact List.nodup_cons.2 ⟨hc, h⟩

theorem mem_setInsert {x c : String} {s : List String} :
    x ∈ setInsert c s ↔ x = c ∨ x ∈ s := by
  unfold setInsert
  split
  · next h =>
    constructor
    · exact Or.inr
    · rintro (rfl | hx)
      · exact h
      · exact hx
  · exact List.mem_cons

theorem RegInv_init : RegInv initReg := by
  refine ⟨?_, ?_, ?_⟩
  · intro c
    simp [initReg]
  · intro u s h
    simp [initReg] at h
  · intro c d u h
    simp [initReg] at h

theorem RegInv_add {r : RegState} (hInv : RegInv r) (c : String)
    (u : Option String) (m : JVal) (gs : List String) (hb : ℚ)
    (hfresh : r.data c = none) :
    RegInv (registry_add_connection r c u m gs hb) := by
  obtain ⟨h1, h2, h3⟩ := hInv
  have hdata : ∀ x d, r.data x = some d →
      (registry_add_connection r c u m gs hb).data x = some d := by
    intro x d hd
    have hxc : x ≠ c := by
      intro hh
      rw [hh, hfresh] at hd
      cases hd
    simp [registry_add_connection, fupdate_other _ _ _ hxc, hd]
  refine ⟨?_, ?_, ?_⟩
  · intro x
    by_cases hx : x = c
    · subst hx
      simp [registry_add_connection, fupdate_same]
    · simp [registry_add_connection, fupdate_other _ _ _ hx, h1 x]
  · intro u' s' hs'
    have hold : r.userConns u' = some s' →
        s' ≠ [] ∧ u' ≠ "" ∧ s'.Nodup ∧
        ∀ x ∈ s', ∃ d, (registry_add_connection r c u m gs hb).data x = some d ∧
          d.user_id = some u' := by
      intro hs0
      obtain ⟨hne, hu, hnd, hmem⟩ := h2 u' s' hs0
      refine ⟨hne, hu, hnd, ?_⟩
      intro x hx
      obtain ⟨d, hd, hdu⟩ := hmem x hx
      exact ⟨d, hdata x d hd, hdu⟩
    cases u with
    | none =>
      simp only [registry_add_connection] at hs'
      exact hold hs'
    | some uu =>
      by_cases huu : uu = ""
      · simp only [registry_add_connection, huu] at hs'
        simp at hs'
        exact hold hs'
      · simp only [registry_add_connection, if_pos huu] at hs'
        by_cases hu' : u' = uu
        · subst hu'
          rw [fupdate_same] at hs'
          injection hs' with hs'
          subst hs'
          refine ⟨setInsert_ne_nil _ _, huu, ?_, ?_⟩
          · cases hcase : r.userConns u' with
            | none => exact setInsert_nodup List.nodup_nil
            | some s0 =>
              obtain ⟨_, _, hnd, _⟩ := h2 u' s0 hcase
              exact setInsert_nodup hnd
          · intro x hx
            rcases mem_setInsert.1 hx with rfl | hx2
            · refine ⟨⟨some u', m, gs, hb⟩, ?_, rfl⟩
              simp [registry_add_connection, fupdate_same]
            · cases hcase : r.userConns u' with
              | none =>
                rw [hcase] at hx2
                exact absurd hx2 (List.not_mem_nil x)
              | some s0 =>
                rw [hcase] at hx2
                obtain ⟨_, _, _, hmem⟩ := h2 u' s0 hcase
                obtain ⟨d, hd, hdu⟩ := hmem x hx2
                exact ⟨d, hdata x d hd, hdu⟩
        · rw [fupdate_other _ _ _ hu'] at hs'
          exact hold hs'
  · intro x d' u' hd' hdu' hu'
    by_cases hx : x = c
    · subst hx
      have h0 : (registry_add_connection r x u m gs hb).data x =
          some { user_id := u, meta := m, groups := gs, heartbeat_timeout := hb } := by
        simp [registry_add_connection, fupdate_same]
      rw [h0] at hd'
      injection hd' with hd''
      subst hd''
      cases u with
      | none => simp at hdu'
      | some uu =>
        have huu : uu = u' := by simpa using hdu'
        subst huu
        refine ⟨setInsert x ((r.userConns uu).getD []), ?_, ?_⟩
        · simp only [registry_add_connection, if_pos hu']
          rw [fupdate_same]
        · exact mem_setInsert.2 (Or.inl rfl)
    · have hdx : r.data x = some d' := by
        simp only [registry_add_connection] at hd'
        rw [fupdate_other _ _ _ hx] at hd'
        exact hd'
      obtain ⟨s, hs, hxs⟩ := h3 x d' u' hdx hdu' hu'
      cases u with
      | none => exact ⟨s, hs, hxs⟩
      | some uu =>
        by_cases huu : uu = ""
        · refine ⟨s, ?_, hxs⟩
          simp only [registry_add_connection, huu]
          simpa using hs
        · by_cases hu2 : u' = uu
          · subst hu2
            refine ⟨setInsert c ((r.userConns u').getD []), ?_, ?_⟩
            · simp only [registry_add_connection, if_pos huu]
              rw [fupdate_same]
            · rw [hs]
              exact mem_setInsert.2 (Or.inr hxs)
          · refine ⟨s, ?_, hxs⟩
            simp only [registry_add_connection, if_pos huu]
            rw [fupdate_other _ _ _ hu2]
            exact hs

theorem RegInv_remove {r : RegState} (hInv : RegInv r) (c : String)
    (u : Option String) (hdisc : ∀ d, r.data c = some d → u = d.user_id) :
    RegInv (registry_remove_connection r c u) := by
  obtain ⟨h1, h2, h3⟩ := hInv
  have hnotin : ∀ u0 s0, r.userConns u0 = some s0 → c ∈ s0 → u = some u0 := by
    intro u0 s0 hs0 hc
    obtain ⟨_, _, _, hmem⟩ := h2 u0 s0 hs0
    obtain ⟨d, hd, hdu⟩ := hmem c hc
    rw [hdisc d hd, hdu]
  have hnot : ∀ u0 s0, r.userConns u0 = some s0 → u ≠ some u0 → c ∉ s0 := by
    intro u0 s0 hs0 hne hc
    exact hne (hnotin u0 s0 hs0 hc)
  have hcarry : ∀ u' s', r.userConns u' = some s' → c ∉ s' →
      s' ≠ [] ∧ u' ≠ "" ∧ s'.Nodup ∧
      ∀ x ∈ s', ∃ d, (registry_remove_connection r c u).data x = some d ∧
        d.user_id = some u' := by
    intro u' s' hs0 hcs
    obtain ⟨hne, hu, hnd, hmem⟩ := h2 u' s' hs0
    refine ⟨hne, hu, hnd, ?_⟩
    intro x hx
    obtain ⟨d, hd, hdu⟩ := hmem x hx
    have hxc : x ≠ c := fun hh => hcs (hh ▸ hx)
    refine ⟨d, ?_, hdu⟩
    simp only [registry_remove_connection]
    rw [fupdate_other _ _ _ hxc]
    exact hd
  refine ⟨?_, ?_, ?_⟩
  · intro x
    by_cases hx : x = c
    · subst hx
      simp [registry_remove_connection, fupdate_same]
    · simp [registry_remove_connection, fupdate_other _ _ _ hx, h1 x]
  · intro u' s' hs'
    cases u with
    | none =>
      simp only [registry_remove_connection] at hs'
      refine hcarry u' s' hs' ?_
      intro hc
      cases hnotin u' s' hs' hc
    | some uu =>
      by_cases huu : uu = ""
      · simp only [registry_remove_connection, huu] at hs'
        simp at hs'
        refine hcarry u' s' hs' ?_
        intro hc
        have h4 := hnotin u' s' hs' hc
        injection h4 with h5
        obtain ⟨_, hu, _, _⟩ := h2 u' s' hs'
        exact hu (h5.symm.trans huu)
      · cases hc0 : r.userConns uu with
        | none =>
          simp only [registry_remove_connection, hc0] at hs'
          rw [if_pos huu] at hs'
          refine hcarry u' s' hs' ?_
          intro hc
          have h4 := hnotin u' s' hs' hc
          injection h4 with h5
          rw [← h5] at hs'
          rw [hc0] at hs'
          cases hs'
        | some s0 =>
          simp only [registry_remove_connection, hc0] at hs'
          rw [if_pos huu] at hs'
          by_cases he : s0.erase c = []
          · rw [if_pos he] at hs'
            by_cases hu' : u' = uu
            · subst hu'
              rw [fupdate_same] at hs'
              cases hs'
            · rw [fupdate_other _ _ _ hu'] at hs'
              refine hcarry u' s' hs' ?_
              intro hc
              have h4 := hnotin u' s' hs' hc
              injection h4 with h5
              exact hu' h5.symm
          · rw [if_neg he] at hs'
            by_cases hu' : u' = uu
            · subst hu'
              rw [fupdate_same] at hs'
              injection hs' with hs''
              subst hs''
              obtain ⟨hne0, hu0, hnd0, hmem0⟩ := h2 u' s0 hc0
              refine ⟨he, hu0, hnd0.erase c, ?_⟩
              intro x hx
              have hx0 : x ∈ s0 := List.mem_of_mem_erase hx
              have hxc : x ≠ c := ((List.Nodup.mem_erase_iff hnd0).1 hx).1
              obtain ⟨d, hd, hdu⟩ := hmem0 x hx0
              refine ⟨d, ?_, hdu⟩
              simp only [registry_remove_connection]
              rw [fupdate_other _ _ _ hxc]
              exact hd
            · rw [fupdate_other _ _ _ hu'] at hs'
              refine hcarry u' s' hs' ?_
              intro hc
              have h4 := hnotin u' s' hs' hc
              injection h4 with h5
              exact hu' h5.symm
  · intro x d' u1 hd' hdu1 hu1
    have hxc : x ≠ c := by
      intro hh
      subst hh
      simp only [registry_remove_connection] at hd'
      rw [fupdate_same] at hd'
      cases hd'
    have hdx : r.data x = some d' := by
      simp only [registry_remove_connection] at hd'
      rw [fupdate_other _ _ _ hxc] at hd'
      exact hd'
    obtain ⟨s, hs, hxs⟩ := h3 x d' u1 hdx hdu1 hu1
    cases u with
    | none => exact ⟨s, hs, hxs⟩
    | some uu =>
      by_cases huu : uu = ""
      · refine ⟨s, ?_, hxs⟩
        simp only [registry_remove_connection, huu]
        simpa using hs
      · cases hc0 : r.userConns uu with
        | none =>
          refine ⟨s, ?_, hxs⟩
          simp only [registry_remove_connection, hc0]
          rw [if_pos huu]
          exact hs
        | some s0 =>
          by_cases hu1' : u1 = uu
          · subst hu1'
            rw [hc0] at hs
            injection hs with hseq
            subst hseq
            obtain ⟨_, _, hnd0, _⟩ := h2 u1 s0 hc0
            have hxe : x ∈ s0.erase c := (List.Nodup.mem_erase_iff hnd0).2 ⟨hxc, hxs⟩
            have he : s0.erase c ≠ [] := by
              intro hh
              rw [hh] at hxe
              exact absurd hxe (List.not_mem_nil x)
            refine ⟨s0.erase c, ?_, hxe⟩
            simp only [registry_remove_connection, hc0]
            rw [if_pos huu, if_neg he, fupdate_same]
          · refine ⟨s, ?_, hxs⟩
            simp only [registry_remove_connection, hc0]
            rw [if_pos huu]
            by_cases he : s0.erase c = []
            · rw [if_pos he, fupdate_other _ _ _ hu1']
              exact hs
            · rw [if_neg he, fupdate_other _ _ _ hu1']
              exact hs

theorem RegInv_updateGroups {r : RegState} (hInv : RegInv r) (c : String)
    (gs : List String) : RegInv (registry_update_groups r c gs) := by
  obtain ⟨h1, h2, h3⟩ := hInv
  have hdata1 : ∀ x d', (registry_update_groups r c gs).data x = some d' →
      ∃ d, r.data x = some d ∧ d.user_id = d'.user_id := by
    intro x d' hd'
    simp only [registry_update_groups] at hd'
    by_cases hx : x = c
    · rw [if_pos hx] at hd'
      cases hc : r.data x with
      | none =>
        rw [hc] at hd'
        cases hd'
      | some d =>
        rw [hc] at hd'
        injection hd' with hh
        exact ⟨d, rfl, by rw [← hh]⟩
    · rw [if_neg hx] at hd'
      exact ⟨d', hd', rfl⟩
  have hdata2 : ∀ x d, r.data x = some d →
      ∃ d', (registry_update_groups r c gs).data x = some d' ∧
        d'.user_id = d.user_id := by
    intro x d hd
    by_cases hx : x = c
    · refine ⟨{ d with groups := gs }, ?_, rfl⟩
      simp only [registry_update_groups]
      rw [if_pos hx, hd]
    · refine ⟨d, ?_, rfl⟩
      simp only [registry_update_groups]
      rw [if_neg hx]
      exact hd
  refine ⟨?_, ?_, ?_⟩
  · intro x
    show r.connections x = true ↔ _
    rw [h1 x]
    constructor
    · intro hc
      obtain ⟨d, hd⟩ := Option.isSome_iff_exists.1 hc
      obtain ⟨d', hd', _⟩ := hdata2 x d hd
      rw [hd']
      rfl
    · intro hc
      obtain ⟨d', hd'⟩ := Option.isSome_iff_exists.1 hc
      obtain ⟨d, hd, _⟩ := hdata1 x d' hd'
      rw [hd]
      rfl
  · intro u s hs
    have hs0 : r.userConns u = some s := hs
    obtain ⟨hne, hu, hnd, hmem⟩ := h2 u s hs0
    refine ⟨hne, hu, hnd, ?_⟩
    intro x hx
    obtain ⟨d, hd, hdu⟩ := hmem x hx
    obtain ⟨d', hd', hd'u⟩ := hdata2 x d hd
    exact ⟨d', hd', by rw [hd'u, hdu]⟩
  · intro x d' u1 hd' hdu1 hu1
    obtain ⟨d, hd, hdu⟩ := hdata1 x d' hd'
    exact h3 x d u1 hd (by rw [hdu, hdu1]) hu1

theorem RegInv_applyRegOp {r : RegState} (hInv : RegInv r) {op : RegOp}
    (hd : Disciplined r op) : RegInv (applyRegOp r op) := by
  cases op with
  | add c u m gs hb => exact RegInv_add hInv c u m gs hb hd
  | remove c u => exact RegInv_remove hInv c u hd
  | updateGroups c gs => exact RegInv_updateGroups hInv c gs

theorem RegInv_run {r : RegState} (hInv : RegInv r) (ops : List RegOp)
    (hrun : DiscRun r ops) : RegInv (runRegOps r ops) := by
  induction ops generalizing r with
  | nil => exact hInv
  | cons op rest ih =>
    obtain ⟨hd, hrest⟩ := hrun
    exact ih (RegInv_applyRegOp hInv hd) hrest

/-- Claim C4 (amended): under the call discipline of the connection layer
(fresh ids on add, the stored user id on remove), the registry invariant
holds after every operation sequence: secondary-index entries are exactly
the primary-map connections with that truthy user id, no user key maps to
an empty set, and a user with no remaining connection has no key, so its
lookup returns the empty set. -/
theorem C4_registry_invariant (ops : List RegOp) (h : DiscRun initReg ops) :
    RegInv (runRegOps initReg ops) ∧
    (∀ u, u ≠ "" →
      (∀ c d, (runRegOps initReg ops).data c = some d → d.user_id ≠ some u) →
      registry_get_user_connections (runRegOps initReg ops) u = []) := by
  have hInv := RegInv_run RegInv_init ops h
  refine ⟨hInv, ?_⟩
  intro u hu hnone
  obtain ⟨_, h2, _⟩ := hInv
  cases hc : (runRegOps initReg ops).userConns u with
  | none => simp [registry_get_user_connections, hc]
  | some s =>
    obtain ⟨hne, _, _, hmem⟩ := h2 u s hc
    obtain ⟨x, hx⟩ := List.exists_mem_of_ne_nil s hne
    obtain ⟨d, hd, hdu⟩ := hmem x hx
    exact absurd hdu (hnone x d hd)

/-- Claim C4 counterexample: the unamended invariant fails. Removing a
connection while passing a user id different from the stored one leaves the
connection dangling in the secondary index though it is gone from the
primary map; and adding a connection with no user id puts it in the primary
map while the secondary index stays empty. -/
theorem C4_registry_counterexample :
    ((runRegOps initReg [RegOp.add ("c1") (some ("u1")) JVal.null [] 0,
        RegOp.remove ("c1") none]).userConns ("u1") = some [("c1")] ∧
      (runRegOps initReg [RegOp.add ("c1") (some ("u1")) JVal.null [] 0,
        RegOp.remove ("c1") none]).data ("c1") = none) ∧
    ((runRegOps initReg [RegOp.add ("c1") none JVal.null [] 0]).data ("c1") =
        some ⟨none, JVal.null, [], 0⟩ ∧
      (runRegOps initReg [RegOp.add ("c1") none JVal.null [] 0]).userConns =
        initReg.userConns) :=
  ⟨⟨rfl, rfl⟩, rfl, rfl⟩

/-- Claim C4 witness: a disciplined two-operation run through the theorem. -/
theorem C4_registry_invariant_witness :
    DiscRun initReg [RegOp.add ("c2") (some ("u2")) JVal.null [] 0,
      RegOp.remove ("c2") (some ("u2"))] ∧
    RegInv (runRegOps initReg [RegOp.add ("c2") (some ("u2")) JVal.null [] 0,
      RegOp.remove ("c2") (some ("u2"))]) := by
  have hdisc : DiscRun initReg [RegOp.add ("c2") (some ("u2")) JVal.null [] 0,
      RegOp.remove ("c2") (some ("u2"))] := by
    refine ⟨rfl, ?_, trivial⟩
    intro d h
    injection h with h1
    rw [← h1]
  exact ⟨hdisc, (C4_registry_invariant _ hdisc).1⟩

/-- Message priority tag. -/
inductive MessagePriority where
  | high : MessagePriority
  | normal : MessagePriority
  | low : MessagePriority
deriving DecidableEq

/-- Embedding of the `Message` dataclass: clock readings as rationals, the
opaque payload fields as JSON values. -/
structure Message where
  type : String
  data : Option JVal
  sender_id : Option String
  group : Option String
  metadata : Option JVal
  priority : MessagePriority
  ttl_seconds : Option ℚ
  created_at : ℚ

/-- Embedding of `Message.is_expired`, with the `time.time()` reading passed
as `now`: false when no TTL is set, true iff the elapsed time exceeds it. -/
def Message.is_expired (m : Message) (now : ℚ) : Bool :=
  match m.ttl_seconds with
  | none => false
  | some ttl => decide (now - m.created_at > ttl)

/-- Modelled from the spec: the error taxonomy of `core/exceptions.py` (the
file is not among the sources) — four sibling typed error kinds. -/
inductive ErrorKind where
  | authentication : ErrorKind
  | validation : ErrorKind
  | message : ErrorKind
  | rateLimit : ErrorKind
deriving DecidableEq

/-- Modelled from the spec: a typed error with its kind, optional error code
and human-readable message (the context blob is omitted). -/
structure AppError where
  kind : ErrorKind
  errCode : Option String
  msg : String
deriving DecidableEq

/-- Modelled from the spec: the structured error response envelope produced
by `to_response`. -/
structure ErrorResponse where
  errCode : Option String
  msg : String
deriving DecidableEq

/-- Modelled from the spec: conversion of a typed error to the error
response envelope. -/
def toResponse (e : AppError) : ErrorResponse :=
  { errCode := e.errCode, msg := e.msg }

/-- Modelled from the spec: the connection state touched by the dispatch
loop and the middleware stages (`core/connections/state.py` is not among
the sources) — identity, heartbeat bookkeeping and traffic counters. -/
structure Conn where
  channel_name : String
  user_id : Option String
  bytes_received : ℕ
  last_heartbeat : ℚ
  last_activity : ℚ

/-- Modelled from the spec: `Connection.update_heartbeat` sets the heartbeat
timestamp to now. -/
def update_heartbeat (c : Conn) (now : ℚ) : Conn :=
  { c with last_heartbeat := now }

/-- Modelled from the spec: `Connection.update_activity` sets the activity
timestamp to now. -/
def update_activity (c : Conn) (now : ℚ) : Conn :=
  { c with last_activity := now }

/-- Embedding of `AuthenticationMiddleware.process`: ping, pong and connect
pass unconditionally; otherwise a Python-falsy user id (absent or empty)
raises AuthenticationError, and any other message passes unchanged. -/
def authProcess (m : Message) (c : Conn) : Except AppError (Option Message) :=
  if m.type = "ping" ∨ m.type = "pong" ∨ m.type = "connect" then
    Except.ok (some m)
  else if truthy c.user_id then Except.ok (some m)
  else
    Except.error
      { kind := ErrorKind.authentication, errCode := none,
        msg := "Authentication required" }

/-- Claim C6 (amended): the authentication stage passes ping, pong and
connect unchanged regardless of authentication state; for every other type
it passes the message unchanged when the user id is truthy and raises
AuthenticationError when the user id is Python-falsy, i.e. absent or the
empty string (not only when it is unset). -/
theorem C6_auth_middleware (m : Message) (c : Conn) :
    ((m.type = "ping" ∨ m.type = "pong" ∨ m.type = "connect") →
      authProcess m c = Except.ok (some m)) ∧
    (¬(m.type = "ping" ∨ m.type = "pong" ∨ m.type = "connect") →
      (truthy c.user_id = true → authProcess m c = Except.ok (some m)) ∧
      (truthy c.user_id = false →
        authProcess m c = Except.error
          { kind := ErrorKind.authentication, errCode := none,
            msg := "Authentication required" })) := by
  refine ⟨?_, ?_⟩
  · intro h
    simp [authProcess, h]
  · intro h
    refine ⟨?_, ?_⟩
    · intro ht
      simp [authProcess, h, ht]
    · intro ht
      simp [authProcess, h, ht]

/-- An unauthenticated connection with an empty-string user id. -/
def connEmptyUser : Conn :=
  { channel_name := "ch1", user_id := some "", bytes_received := 0,
    last_heartbeat := 0, last_activity := 0 }

/-- A chat message used for the middleware claims. -/
def chatMsg : Message :=
  { type := "chat", data := none, sender_id := none, group := none,
    metadata := none, priority := MessagePriority.normal, ttl_seconds := none,
    created_at := 0 }

/-- Claim C6 counterexample: a connection whose user id is set to the empty
string has `user_id` set, yet the stage raises AuthenticationError for a
chat message, refuting "raises iff user_id unset". -/
theorem C6_auth_middleware_counterexample :
    connEmptyUser.user_id ≠ none ∧
    authProcess chatMsg connEmptyUser = Except.error
      { kind := ErrorKind.authentication, errCode := none,
        msg := "Authentication required" } :=
  ⟨by simp [connEmptyUser], rfl⟩

/-- Claim C6 witness: the theorem applied to a ping from an unauthenticated
connection and to a chat message from an authenticated one. -/
theorem C6_auth_middleware_witness :
    (("ping" = "ping" ∨ ("ping" : String) = "pong" ∨ ("ping" : String) = "connect") ∧
      authProcess { chatMsg with type := "ping" } connEmptyUser =
        Except.ok (some { chatMsg with type := "ping" })) ∧
    (¬(("chat" = "ping" ∨ ("chat" : String) = "pong" ∨ ("chat" : String) = "connect")) ∧
      truthy (some ("u")) = true ∧
      authProcess chatMsg { connEmptyUser with user_id := some ("u") } =
        Except.ok (some chatMsg)) :=
  ⟨⟨Or.inl rfl,
      (C6_auth_middleware { chatMsg with type := "ping" } connEmptyUser).1 (Or.inl rfl)⟩,
    by decide, rfl,
    ((C6_auth_middleware chatMsg { connEmptyUser with user_id := some ("u") }).2
      (by decide)).1 rfl⟩

/-- Extract the kind of a raised error, `none` when nothing was raised. -/
def raisedKind {α : Type} : Except AppError α → Option ErrorKind
  | Except.error e => some e.kind
  | Except.ok _ => none

/-- Embedding of `ValidationMiddleware.process`, parameterized by the
serializer's size function (the serializer component is external): raise
ValidationError when the serialized size exceeds the configured maximum;
otherwise silently drop an expired message; otherwise pass it unchanged. -/
def validationProcess (size : Message → ℕ) (max_message_size : ℕ) (now : ℚ)
    (m : Message) : Except AppError (Option Message) :=
  if size m > max_message_size then
    Except.error
      { kind := ErrorKind.validation, errCode := none, msg := "Message too large" }
  else if m.is_expired now then Except.ok none
  else Except.ok (some m)

/-- Claim C7: the validation stage raises ValidationError iff the serialized
size exceeds the configured maximum; a message within the limit is silently
dropped when expired and passed unchanged otherwise. -/
theorem C7_validation_middleware (size : Message → ℕ) (max_message_size : ℕ)
    (now : ℚ) (m : Message) :
    (raisedKind (validationProcess size max_message_size now m) =
      some ErrorKind.validation ↔ size m > max_message_size) ∧
    (size m ≤ max_message_size → m.is_expired now = true →
      validationProcess size max_message_size now m = Except.ok none) ∧
    (size m ≤ max_message_size → m.is_expired now = false →
      validationProcess size max_message_size now m = Except.ok (some m)) := by
  refine ⟨?_, ?_, ?_⟩
  · constructor
    · intro h
      by_contra hc
      rw [validationProcess, if_neg hc] at h
      by_cases he : m.is_expired now
      · rw [if_pos he] at h
        cases h
      · rw [if_neg he] at h
        cases h
    · intro h
      rw [validationProcess, if_pos h]
      rfl
  · intro h he
    rw [validationProcess, if_neg (by omega), if_pos he]
  · intro h he
    rw [validationProcess, if_neg (by omega), if_neg (by simp [he])]

/-- A serialized-size function for the witnesses: the length of the type
tag. -/
def sizeByType : Message → ℕ := fun m => m.type.length

/-- An oversize message for the claim C7 witness. -/
def bigMsg : Message := { chatMsg with type := "toolarge" }

/-- An expired message (TTL one second, created at 0) for the claim C7
witness. -/
def expMsg : Message := { chatMsg with ttl_seconds := some 1 }

/-- Claim C7 witness: the theorem applied to an oversize message, an expired
message within the limit, and a fresh message within the limit. -/
theorem C7_validation_middleware_witness :
    (sizeByType bigMsg > 5 ∧
      raisedKind (validationProcess sizeByType 5 0 bigMsg) =
        some ErrorKind.validation) ∧
    (sizeByType expMsg ≤ 5 ∧ expMsg.is_expired 2 = true ∧
      validationProcess sizeByType 5 2 expMsg = Except.ok none) ∧
    (sizeByType chatMsg ≤ 5 ∧ chatMsg.is_expired 0 = false ∧
      validationProcess sizeByType 5 0 chatMsg = Except.ok (some chatMsg)) := by
  have hexp : expMsg.is_expired 2 = true := by
    norm_num [Message.is_expired, expMsg, chatMsg]
  refine ⟨⟨by decide, (C7_validation_middleware sizeByType 5 0 bigMsg).1.2 (by decide)⟩,
    ⟨by decide, hexp,
      (C7_validation_middleware sizeByType 5 2 expMsg).2.1 (by decide) hexp⟩,
    by decide, rfl,
    (C7_validation_middleware sizeByType 5 0 chatMsg).2.2 (by decide) rfl⟩

/-- A middleware stage as seen by the dispatch loop: transform the message,
drop it (`none`), or raise a typed error. -/
def MW : Type := Message → Except AppError (Option Message)

/-- The dispatch loop's middleware iteration: run each stage in order, stop
at the first drop or raised error. -/
def runPipeline : List MW → Message → Except AppError (Option Message)
  | [], m => Except.ok (some m)
  | mw :: rest, m =>
    match mw m with
    | Except.error e => Except.error e
    | Except.ok none => Except.ok none
    | Except.ok (some m') => runPipeline rest m'

/-- The parsed wire payload (result of `json.loads`) with the envelope
fields `handle_message` reads, plus the client-supplied `sender_id` it
ignores. A parse failure is represented as `none` at the call site. -/
structure Payload where
  type : Option String
  data : Option JVal
  sender_id : Option JVal
  metadata : Option JVal
  ttl_seconds : Option ℚ
  priority : Option JVal

/-- The priority parse in `handle_message`: a recognized enum value is used,
anything else falls back to normal (never an error). -/
def parsePriority (v : Option JVal) : MessagePriority :=
  match v with
  | some (JVal.str s) =>
    if s = "high" then MessagePriority.high
    else if s = "normal" then MessagePriority.normal
    else if s = "low" then MessagePriority.low
    else MessagePriority.normal
  | some _ => MessagePriority.normal
  | none => MessagePriority.normal

/-- The Message constructed by `handle_message`: type from the payload with
default, data and metadata from the payload, `sender_id` forced to the
connection's own channel name, TTL and priority from the payload, creation
time now. -/
def buildMessage (c : Conn) (p : Payload) (now : ℚ) : Message :=
  { type := p.type.getD ("message")
    data := p.data
    sender_id := some c.channel_name
    group := none
    metadata := p.metadata
    priority := parsePriority p.priority
    ttl_seconds := p.ttl_seconds
    created_at := now }

/-- The ValidationError raised for malformed JSON. -/
def invalidJsonError : AppError :=
  { kind := ErrorKind.validation, errCode := some ("INVALID_JSON"),
    msg := "Invalid JSON format" }

/-- Result of one `handle_message` call: the updated connection, the frames
sent over this connection's own websocket, the error raised out of the
call if any, and the message handed to the `receive` hook if any. -/
structure HandleResult where
  conn : Conn
  sent : List ErrorResponse
  raised : Option AppError
  delivered : Option Message

/-- The error kinds named in the dispatch loop's except clause
`(AuthenticationError, ValidationError, MessageError)`; RateLimitError is
not among them. -/
def caughtKind (k : ErrorKind) : Bool :=
  match k with
  | ErrorKind.authentication => true
  | ErrorKind.validation => true
  | ErrorKind.message => true
  | ErrorKind.rateLimit => false

/-- Embedding of `BaseConsumer.handle_message`: parse failure raises the
INVALID_JSON ValidationError out of the call (the raise sits inside the
JSONDecodeError handler, so the sibling except clause does not catch it); a
pong updates the heartbeat and returns; otherwise the Message is built, the
connection counters update, the pipeline runs, and a raised error of a kind
listed in the except clause is converted to an error response sent on this
connection, while any other raised error propagates; a surviving message is
handed to the `receive` hook, whose raised errors meet the same except
clause. -/
def handle_message (c : Conn) (raw : Option Payload) (rawLen : ℕ) (now : ℚ)
    (mws : List MW) (hook : Message → Except AppError Unit) : HandleResult :=
  match raw with
  | none =>
    { conn := c, sent := [], raised := some invalidJsonError, delivered := none }
  | some p =>
    if p.type.getD ("message") = "pong" then
      { conn := update_heartbeat c now, sent := [], raised := none,
        delivered := none }
    else
      let m := buildMessage c p now
      let c' := update_activity
        { c with bytes_received := c.bytes_received + rawLen } now
      match runPipeline mws m with
      | Except.error e =>
        if caughtKind e.kind then
          { conn := c', sent := [toResponse e], raised := none, delivered := none }
        else
          { conn := c', sent := [], raised := some e, delivered := none }
      | Except.ok none =>
        { conn := c', sent := [], raised := none, delivered := none }
      | Except.ok (some m') =>
        match hook m' with
        | Except.ok _ =>
          { conn := c', sent := [], raised := none, delivered := some m' }
        | Except.error e =>
          if caughtKind e.kind then
            { conn := c', sent := [toResponse e], raised := none, delivered := none }
          else
            { conn := c', sent := [], raised := some e, delivered := none }

/-- Claim C1 (amended): a typed error of a kind listed in the dispatch
loop's except clause (Authentication, Validation, Message) raised by a
middleware stage or by the receive hook is caught, converted to the error
response envelope and sent as the single frame over the originating
connection's own transport, with nothing raised and nothing delivered; a
kind outside the clause (RateLimit, under the spec-modelled sibling
taxonomy) is raised out of the call with nothing sent. The INVALID_JSON
ValidationError for a malformed frame is raised out, not caught (see the
counterexample). -/
theorem C1_dispatch_error_containment (c : Conn) (p : Payload) (rawLen : ℕ)
    (now : ℚ) (mws : List MW) (hook : Message → Except AppError Unit)
    (e : AppError) (ht : p.type.getD ("message") ≠ "pong") :
    (runPipeline mws (buildMessage c p now) = Except.error e →
      caughtKind e.kind = true →
      (handle_message c (some p) rawLen now mws hook).raised = none ∧
      (handle_message c (some p) rawLen now mws hook).sent = [toResponse e] ∧
      (handle_message c (some p) rawLen now mws hook).delivered = none) ∧
    (runPipeline mws (buildMessage c p now) = Except.error e →
      caughtKind e.kind = false →
      (handle_message c (some p) rawLen now mws hook).raised = some e ∧
      (handle_message c (some p) rawLen now mws hook).sent = []) ∧
    (∀ m', runPipeline mws (buildMessage c p now) = Except.ok (some m') →
      hook m' = Except.error e → caughtKind e.kind = true →
      (handle_message c (some p) rawLen now mws hook).raised = none ∧
      (handle_message c (some p) rawLen now mws hook).sent = [toResponse e] ∧
      (handle_message c (some p) rawLen now mws hook).delivered = none) := by
  refine ⟨?_, ?_, ?_⟩
  · intro hp hk
    simp [handle_message, if_neg ht, hp, hk]
  · intro hp hk
    simp [handle_message, if_neg ht, hp, hk]
  · intro m' hp hh hk
    simp [handle_message, if_neg ht, hp, hh, hk]

/-- A receive hook that accepts every message. -/
def hook0 : Message → Except AppError Unit := fun _ => Except.ok ()

/-- A fresh unauthenticated connection. -/
def conn0 : Conn :=
  { channel_name := "ch1", user_id := none, bytes_received := 0,
    last_heartbeat := 0, last_activity := 0 }

/-- Claim C1 counterexample: on a malformed frame (`json.loads` raises), the
INVALID_JSON ValidationError is raised out of `handle_message` and no error
response is sent — the raise sits inside the JSONDecodeError handler, whose
exception the sibling except clause does not catch — refuting the claim
that every typed ValidationError, including the malformed-JSON one, is
caught and sent back over the transport. -/
theorem C1_dispatch_counterexample :
    (handle_message conn0 none 5 0 [] hook0).raised = some invalidJsonError ∧
    (handle_message conn0 none 5 0 [] hook0).sent = [] :=
  ⟨rfl, rfl⟩

/-- The AuthenticationError value raised by the authentication stage. -/
def authRequiredError : AppError :=
  { kind := ErrorKind.authentication, errCode := none,
    msg := "Authentication required" }

/-- A MessageError value raised by the failing receive hook. -/
def boomError : AppError :=
  { kind := ErrorKind.message, errCode := none, msg := "boom" }

/-- A middleware stage that always raises AuthenticationError. -/
def mwAuthFail : MW :=
  fun _ => Except.error authRequiredError

/-- A receive hook that always raises MessageError. -/
def hookFail : Message → Except AppError Unit :=
  fun _ => Except.error boomError

/-- A plain chat payload. -/
def payload0 : Payload :=
  { type := some ("chat"), data := none, sender_id := none, metadata := none,
    ttl_seconds := none, priority := none }

/-- Claim C1 witness: the theorem applied to a pipeline stage raising
AuthenticationError and to a hook raising MessageError, both caught and
converted to a single error frame on the originating connection. -/
theorem C1_dispatch_error_containment_witness :
    (payload0.type.getD ("message") ≠ "pong" ∧
      runPipeline [mwAuthFail] (buildMessage conn0 payload0 0) =
        Except.error authRequiredError ∧
      (handle_message conn0 (some payload0) 5 0 [mwAuthFail] hook0).raised = none ∧
      (handle_message conn0 (some payload0) 5 0 [mwAuthFail] hook0).sent =
        [toResponse authRequiredError] ∧
      (handle_message conn0 (some payload0) 5 0 [mwAuthFail] hook0).delivered = none) ∧
    (runPipeline [] (buildMessage conn0 payload0 0) =
        Except.ok (some (buildMessage conn0 payload0 0)) ∧
      hookFail (buildMessage conn0 payload0 0) =
        Except.error boomError ∧
      (handle_message conn0 (some payload0) 5 0 [] hookFail).raised = none ∧
      (handle_message conn0 (some payload0) 5 0 [] hookFail).sent =
        [toResponse boomError] ∧
      (handle_message conn0 (some payload0) 5 0 [] hookFail).delivered = none) := by
  have h1 := (C1_dispatch_error_containment conn0 payload0 5 0 [mwAuthFail] hook0
    authRequiredError (by decide)).1 rfl rfl
  have h2 := ((C1_dispatch_error_containment conn0 payload0 5 0 [] hookFail
    boomError (by decide)).2.2
    (buildMessage conn0 payload0 0) rfl rfl rfl)
  exact ⟨⟨by decide, rfl, h1.1, h1.2.1, h1.2.2⟩, rfl, rfl, h2.1, h2.2.1, h2.2.2⟩

/-- Claim C8: the Message built by `handle_message` for a non-pong frame has
`sender_id` equal to the connection's own channel name, and two payloads
that agree on every field read by `handle_message` and differ only in the
client-supplied `sender_id` produce the identical Message and the identical
dispatch result. -/
theorem C8_sender_id_forced (c : Conn) (p q : Payload) (rawLen : ℕ) (now : ℚ)
    (mws : List MW) (hook : Message → Except AppError Unit)
    (h1 : p.type = q.type) (h2 : p.data = q.data) (h3 : p.metadata = q.metadata)
    (h4 : p.ttl_seconds = q.ttl_seconds) (h5 : p.priority = q.priority) :
    (buildMessage c p now).sender_id = some c.channel_name ∧
    buildMessage c p now = buildMessage c q now ∧
    handle_message c (some p) rawLen now mws hook =
      handle_message c (some q) rawLen now mws hook := by
  have hb : buildMessage c p now = buildMessage c q now := by
    simp [buildMessage, h1, h2, h3, h4, h5]
  refine ⟨rfl, hb, ?_⟩
  simp only [handle_message, h1, hb]

/-- The chat payload with a spoofed client-supplied sender id. -/
def payloadSpoof : Payload :=
  { payload0 with sender_id := some (JVal.str ("someone-else")) }

/-- Claim C8 witness: the theorem applied to the plain payload and its
spoofed-sender variant on a concrete connection. -/
theorem C8_sender_id_forced_witness :
    (payload0.type = payloadSpoof.type ∧ payload0.data = payloadSpoof.data ∧
      payload0.metadata = payloadSpoof.metadata ∧
      payload0.ttl_seconds = payloadSpoof.ttl_seconds ∧
      payload0.priority = payloadSpoof.priority) ∧
    (buildMessage conn0 payload0 0).sender_id = some conn0.channel_name ∧
    buildMessage conn0 payload0 0 = buildMessage conn0 payloadSpoof 0 ∧
    handle_message conn0 (some payload0) 5 0 [] hook0 =
      handle_message conn0 (some payloadSpoof) 5 0 [] hook0 :=
  ⟨⟨rfl, rfl, rfl, rfl, rfl⟩,
    C8_sender_id_forced conn0 payload0 payloadSpoof 5 0 [] hook0
      rfl rfl rfl rfl rfl⟩
